import Mathlib

/-!
Shallow embedding of the Agonus parimutuel betting ledger
(src/contracts/contracts/AgonusBetting.sol).

Machine integers (uint256) are modelled as Nat: Solidity 0.8 checked
arithmetic reverts on overflow rather than wrapping, and every claim here
concerns values far below 2^256, so no modular reduction appears.
External value transfers (the low-level `call`) are modelled by a Bool
oracle passed to the operation: `true` means the transfer succeeded,
`false` that it failed, in which case the whole operation reverts
(Solidity `require(success)` semantics), i.e. returns an error and the
caller keeps the pre-state.
-/

namespace Agonus

/-- Participant identity (an EVM address), modelled abstractly. -/
abbrev Addr := Nat

/-- `PLATFORM_FEE_BP` from the contract: 5% in basis points. -/
def PLATFORM_FEE_BP : Nat := 500

/-- `BP_DIVISOR` from the contract. -/
def BP_DIVISOR : Nat := 10000

/-- `MIN_BET` from the contract: 0.001 ether, in wei. -/
def MIN_BET : Nat := 1000000000000000

/-- The `Tournament` struct of the contract. -/
structure Tournament where
  isActive : Bool
  isSettled : Bool
  totalPool : Nat
  winningAgentId : Nat
  agentCount : Nat
deriving DecidableEq, Repr

/-- The default (zero-initialised) `Tournament` record: Solidity mappings
return the zero struct for keys never written, and `agentCount = 0` is the
contract's "does not exist" marker. -/
def Tournament.empty : Tournament :=
  { isActive := false, isSettled := false, totalPool := 0
    winningAgentId := 0, agentCount := 0 }

/-- The contract's storage: the four mappings plus the id counter.
Solidity mappings are total functions defaulting to zero values. -/
structure BettingState where
  nextTournamentId : Nat
  tournaments : Nat → Tournament
  agentPools : Nat → Nat → Nat
  userBets : Nat → Addr → Nat → Nat
  hasClaimed : Nat → Addr → Bool

/-- Storage right after deployment: everything zero. -/
def initState : BettingState :=
  { nextTournamentId := 0
    tournaments := fun _ => Tournament.empty
    agentPools := fun _ _ => 0
    userBets := fun _ _ _ => 0
    hasClaimed := fun _ _ => false }

/-- The distinct revert reasons of the contract, one constructor per
`require` message string. -/
inductive Err where
  | InvalidAgentCount
  | TournamentNotFound
  | AlreadyClosed
  | BettingStillActive
  | AlreadySettled
  | NoBetsPlaced
  | InvalidAgentId
  | FeeTransferFailed
  | TournamentNotActive
  | BelowMinimum
  | NotSettled
  | AlreadyClaimed
  | NoWinningBets
  | NothingToClaim
  | TransferFailed
deriving DecidableEq, Repr

/-- `createTournament(agentCount)`: allocates the next sequential id and
initialises the tournament active, unsettled, with zero pool. -/
def createTournament (st : BettingState) (agentCount : Nat) :
    Except Err (BettingState × Nat) :=
  if 2 ≤ agentCount ∧ agentCount ≤ 100 then
    let tid := st.nextTournamentId
    .ok ({ st with
            nextTournamentId := tid + 1
            tournaments := fun i =>
              if i = tid then
                { isActive := true, isSettled := false, totalPool := 0
                  winningAgentId := 0, agentCount := agentCount }
              else st.tournaments i }, tid)
  else .error .InvalidAgentCount

/-- `closeBetting(tournamentId)`: sets `isActive := false`. -/
def closeBetting (st : BettingState) (tid : Nat) : Except Err BettingState :=
  let t := st.tournaments tid
  if t.agentCount = 0 then .error .TournamentNotFound
  else if ¬ t.isActive then .error .AlreadyClosed
  else .ok { st with
    tournaments := fun i =>
      if i = tid then { t with isActive := false } else st.tournaments i }

/-- `settleTournament(tournamentId, winningAgentId)`: marks the tournament
settled with the given winner and transfers the platform fee
`totalPool * PLATFORM_FEE_BP / BP_DIVISOR`; `feeOk` is the outcome of that
transfer, and its failure reverts the whole settlement. Returns the new
state and the fee amount transferred. -/
def settleTournament (st : BettingState) (tid winningAgentId : Nat)
    (feeOk : Bool) : Except Err (BettingState × Nat) :=
  let t := st.tournaments tid
  if t.agentCount = 0 then .error .TournamentNotFound
  else if t.isActive then .error .BettingStillActive
  else if t.isSettled then .error .AlreadySettled
  else if t.totalPool = 0 then .error .NoBetsPlaced
  else if ¬ (0 < winningAgentId ∧ winningAgentId ≤ t.agentCount) then
    .error .InvalidAgentId
  else if ¬ feeOk then .error .FeeTransferFailed
  else
    .ok ({ st with
            tournaments := fun i =>
              if i = tid then
                { t with isSettled := true, winningAgentId := winningAgentId }
              else st.tournaments i },
         (t.totalPool * PLATFORM_FEE_BP) / BP_DIVISOR)

/-- `cancelTournament(tournamentId)`: closes and settles with
`winningAgentId` left at 0, the cancellation sentinel. -/
def cancelTournament (st : BettingState) (tid : Nat) :
    Except Err BettingState :=
  let t := st.tournaments tid
  if t.agentCount = 0 then .error .TournamentNotFound
  else if t.isSettled then .error .AlreadySettled
  else .ok { st with
    tournaments := fun i =>
      if i = tid then { t with isActive := false, isSettled := true }
      else st.tournaments i }

/-- `placeBet(tournamentId, agentId)` with `msg.value = amount` and
`msg.sender = sender`: credits the three ledgers by `amount`. -/
def placeBet (st : BettingState) (tid agentId amount : Nat) (sender : Addr) :
    Except Err BettingState :=
  let t := st.tournaments tid
  if t.agentCount = 0 then .error .TournamentNotFound
  else if ¬ t.isActive then .error .TournamentNotActive
  else if amount < MIN_BET then .error .BelowMinimum
  else if ¬ (0 < agentId ∧ agentId ≤ t.agentCount) then .error .InvalidAgentId
  else .ok { st with
    tournaments := fun i =>
      if i = tid then { t with totalPool := t.totalPool + amount }
      else st.tournaments i
    agentPools := fun i a =>
      if i = tid ∧ a = agentId then st.agentPools i a + amount
      else st.agentPools i a
    userBets := fun i u a =>
      if i = tid ∧ u = sender ∧ a = agentId then st.userBets i u a + amount
      else st.userBets i u a }

/-- The refund loop of `claimWinnings` / `calculatePayout`: the sum of the
participant's bets over agents `1..agentCount`. -/
def refundSum (st : BettingState) (tid : Nat) (user : Addr)
    (agentCount : Nat) : Nat :=
  ∑ i ∈ Finset.range agentCount, st.userBets tid user (i + 1)

/-- The proportional payout expression of `claimWinnings`:
`userBetOnWinner * (totalPool - totalPool*FEE/10000) / winningPool`,
with Nat (floor) division exactly as the EVM computes it. -/
def winnerPayout (totalPool winningPool stake : Nat) : Nat :=
  (stake * (totalPool - (totalPool * PLATFORM_FEE_BP) / BP_DIVISOR)) /
    winningPool

/-- The effects phase of `claimWinnings(tournamentId)`: all checks and
storage writes up to (but excluding) the outbound transfer. On success it
returns the state as it stands at the moment the transfer is attempted —
in particular `hasClaimed` is already set — together with the payout. -/
def claimCompute (st : BettingState) (tid : Nat) (user : Addr) :
    Except Err (BettingState × Nat) :=
  let t := st.tournaments tid
  if t.agentCount = 0 then .error .TournamentNotFound
  else if ¬ t.isSettled then .error .NotSettled
  else if st.hasClaimed tid user then .error .AlreadyClaimed
  else
    let payoutE : Except Err Nat :=
      if t.winningAgentId = 0 then
        .ok (refundSum st tid user t.agentCount)
      else
        let userBetOnWinner := st.userBets tid user t.winningAgentId
        if userBetOnWinner = 0 then .error .NoWinningBets
        else .ok (winnerPayout t.totalPool
                    (st.agentPools tid t.winningAgentId) userBetOnWinner)
    match payoutE with
    | .error e => .error e
    | .ok payout =>
        if payout = 0 then .error .NothingToClaim
        else .ok ({ st with
                     hasClaimed := fun i u =>
                       if i = tid ∧ u = user then true
                       else st.hasClaimed i u }, payout)

/-- `claimWinnings(tournamentId)` with `msg.sender = user`: the effects
phase followed by the outbound transfer, whose outcome is `transferOk`; a
failed transfer reverts everything (`require(success)`). -/
def claimWinnings (st : BettingState) (tid : Nat) (user : Addr)
    (transferOk : Bool) : Except Err (BettingState × Nat) :=
  match claimCompute st tid user with
  | .error e => .error e
  | .ok sp => if transferOk then .ok sp else .error .TransferFailed

/-- `getAgentOdds(tournamentId, agentId)`: view function, basis-point odds. -/
def getAgentOdds (st : BettingState) (tid agentId : Nat) : Except Err Nat :=
  let t := st.tournaments tid
  if ¬ (0 < agentId ∧ agentId ≤ t.agentCount) then .error .InvalidAgentId
  else if t.totalPool = 0 then .ok BP_DIVISOR
  else
    let pool := st.agentPools tid agentId
    if pool = 0 then .ok 0
    else .ok (((t.totalPool * (BP_DIVISOR - PLATFORM_FEE_BP)) / BP_DIVISOR)
                * BP_DIVISOR / pool)

/-- `calculatePayout(tournamentId, user)`: view function mirroring the
claim computation, returning 0 instead of reverting. -/
def calculatePayout (st : BettingState) (tid : Nat) (user : Addr) : Nat :=
  let t := st.tournaments tid
  if ¬ t.isSettled then 0
  else if st.hasClaimed tid user then 0
  else if t.winningAgentId = 0 then refundSum st tid user t.agentCount
  else
    let userBetOnWinner := st.userBets tid user t.winningAgentId
    if userBetOnWinner = 0 then 0
    else winnerPayout t.totalPool (st.agentPools tid t.winningAgentId)
           userBetOnWinner

/-- `getUserBetOnAgent(tournamentId, user, agentId)`: view accessor. -/
def getUserBetOnAgent (st : BettingState) (tid : Nat) (user : Addr)
    (agentId : Nat) : Nat :=
  st.userBets tid user agentId

/-- One externally-callable mutating operation, with its transfer oracle
where the operation performs an outbound transfer. -/
inductive Op where
  | create (agentCount : Nat)
  | close (tid : Nat)
  | settle (tid winningAgentId : Nat) (feeOk : Bool)
  | cancel (tid : Nat)
  | bet (tid agentId amount : Nat) (sender : Addr)
  | claim (tid : Nat) (user : Addr) (transferOk : Bool)

/-- Transaction semantics: a reverted operation leaves storage unchanged. -/
def execOp (st : BettingState) : Op → BettingState
  | .create c =>
      match createTournament st c with | .ok (s, _) => s | .error _ => st
  | .close tid =>
      match closeBetting st tid with | .ok s => s | .error _ => st
  | .settle tid w feeOk =>
      match settleTournament st tid w feeOk with
      | .ok (s, _) => s | .error _ => st
  | .cancel tid =>
      match cancelTournament st tid with | .ok s => s | .error _ => st
  | .bet tid a amt u =>
      match placeBet st tid a amt u with | .ok s => s | .error _ => st
  | .claim tid u transferOk =>
      match claimWinnings st tid u transferOk with
      | .ok (s, _) => s | .error _ => st

/-- The storage reached by running a sequence of operations from a fresh
deployment. -/
def run (ops : List Op) : BettingState :=
  ops.foldl execOp initState

/-- A storage state is reachable when some operation sequence produces it. -/
def Reachable (st : BettingState) : Prop :=
  ∃ ops : List Op, run ops = st

/-- Sum of the per-agent pools of a tournament over agents
`1..agentCount`. -/
def sumPools (st : BettingState) (tid : Nat) : Nat :=
  ∑ i ∈ Finset.range (st.tournaments tid).agentCount,
    st.agentPools tid (i + 1)

deriving instance DecidableEq for Except

/-- The ledger invariants maintained by every reachable storage state. -/
structure Inv (st : BettingState) : Prop where
  fresh_t : ∀ tid, st.nextTournamentId ≤ tid →
    st.tournaments tid = Tournament.empty
  fresh_p : ∀ tid, st.nextTournamentId ≤ tid → ∀ a, st.agentPools tid a = 0
  conserve : ∀ tid, sumPools st tid = (st.tournaments tid).totalPool
  poolRange : ∀ tid a, ((st.tournaments tid).agentCount < a ∨ a = 0) →
    st.agentPools tid a = 0
  betLe : ∀ tid u a, st.userBets tid u a ≤ st.agentPools tid a
  betMin : ∀ tid u a, st.userBets tid u a = 0 ∨ MIN_BET ≤ st.userBets tid u a
  winSettled : ∀ tid, (st.tournaments tid).winningAgentId ≠ 0 →
    (st.tournaments tid).isSettled = true ∧
    0 < (st.tournaments tid).winningAgentId ∧
    (st.tournaments tid).winningAgentId ≤ (st.tournaments tid).agentCount

theorem inv_init : Inv initState := by
  constructor <;> intros <;>
    simp_all [initState, sumPools, Tournament.empty]

/-- Adding `amount` at position `a ∈ [1, c]` raises the range sum by
`amount`. -/
theorem sum_range_bump (c a amount : Nat) (f : Nat → Nat) (h1 : 0 < a)
    (h2 : a ≤ c) :
    (∑ i ∈ Finset.range c,
        if i + 1 = a then f (i + 1) + amount else f (i + 1))
      = (∑ i ∈ Finset.range c, f (i + 1)) + amount := by
  have hcong : ∀ i ∈ Finset.range c,
      (if i + 1 = a then f (i + 1) + amount else f (i + 1))
        = f (i + 1) + (if i = a - 1 then amount else 0) := by
    intro i _
    by_cases h : i + 1 = a
    · have hi : i = a - 1 := by omega
      simp [h, hi]
      intro hc
      omega
    · have hi : ¬ i = a - 1 := by omega
      simp [h, hi]
  rw [Finset.sum_congr rfl hcong, Finset.sum_add_distrib,
    Finset.sum_ite_eq' (Finset.range c) (a - 1) (fun _ => amount),
    if_pos (Finset.mem_range.mpr (by omega))]

theorem placeBet_ok_inversion (st st' : BettingState) (tid a amt : Nat)
    (u : Addr) (h : placeBet st tid a amt u = .ok st') :
    (st.tournaments tid).agentCount ≠ 0 ∧
    (st.tournaments tid).isActive = true ∧
    MIN_BET ≤ amt ∧ 0 < a ∧ a ≤ (st.tournaments tid).agentCount ∧
    st' = { st with
      tournaments := fun i =>
        if i = tid then
          { st.tournaments tid with
              totalPool := (st.tournaments tid).totalPool + amt }
        else st.tournaments i
      agentPools := fun i a' =>
        if i = tid ∧ a' = a then st.agentPools i a' + amt
        else st.agentPools i a'
      userBets := fun i u' a' =>
        if i = tid ∧ u' = u ∧ a' = a then st.userBets i u' a' + amt
        else st.userBets i u' a' } := by
  simp only [placeBet] at h
  split at h
  · exact absurd h (by simp)
  split at h
  · exact absurd h (by simp)
  split at h
  · exact absurd h (by simp)
  split at h
  · exact absurd h (by simp)
  rename_i hex hact hmin hrange
  injection h with h
  refine ⟨hex, by simpa using hact, by omega, ?_, ?_, h.symm⟩ <;> omega

theorem inv_placeBet (st st' : BettingState) (tid a amt : Nat) (u : Addr)
    (hInv : Inv st) (h : placeBet st tid a amt u = .ok st') : Inv st' := by
  obtain ⟨hex, hact, hmin, ha0, hac, hst'⟩ :=
    placeBet_ok_inversion st st' tid a amt u h
  subst hst'
  constructor
  · intro tid' h'
    by_cases he : tid' = tid
    · subst he
      exact absurd (congrArg Tournament.agentCount (hInv.fresh_t tid' h'))
        (by simpa [Tournament.empty] using hex)
    · simpa [he] using hInv.fresh_t tid' h'
  · intro tid' h' a'
    by_cases he : tid' = tid
    · subst he
      exact absurd (congrArg Tournament.agentCount (hInv.fresh_t tid' h'))
        (by simpa [Tournament.empty] using hex)
    · simpa [he] using hInv.fresh_p tid' h' a'
  · intro tid'
    by_cases he : tid' = tid
    · subst he
      have hsum := hInv.conserve tid'
      simp only [sumPools] at hsum ⊢
      simp only [if_pos rfl, true_and, eq_self_iff_true, if_true, ite_true]
      rw [sum_range_bump _ a amt (fun x => st.agentPools tid' x) ha0 hac]
      simp [hsum]
    · have hsum := hInv.conserve tid'
      simp only [sumPools] at hsum ⊢
      simpa [he] using hsum
  · intro tid' a' h'
    by_cases he : tid' = tid
    · subst he
      simp only [eq_self_iff_true, if_true, ite_true, true_and] at h' ⊢
      have hne : ¬ (a' = a) := by omega
      simp only [hne, if_false]
      exact hInv.poolRange tid' a' h'
    · simp only [he, false_and, if_false, ite_false] at h' ⊢
      exact hInv.poolRange tid' a' h'
  · intro tid' u' a'
    simp only []
    by_cases hp : tid' = tid ∧ a' = a
    · by_cases hu : u' = u
      · have hb : tid' = tid ∧ u' = u ∧ a' = a := ⟨hp.1, hu, hp.2⟩
        rw [if_pos hb, if_pos hp]
        exact Nat.add_le_add_right (hInv.betLe tid' u' a') amt
      · have hnb : ¬ (tid' = tid ∧ u' = u ∧ a' = a) := by tauto
        rw [if_neg hnb, if_pos hp]
        exact Nat.le_trans (hInv.betLe tid' u' a') (Nat.le_add_right _ _)
    · have hnb : ¬ (tid' = tid ∧ u' = u ∧ a' = a) := by tauto
      rw [if_neg hnb, if_neg hp]
      exact hInv.betLe tid' u' a'
  · intro tid' u' a'
    simp only []
    by_cases hc : tid' = tid ∧ u' = u ∧ a' = a
    · rw [if_pos hc]
      exact Or.inr (Nat.le_trans hmin (Nat.le_add_left amt _))
    · rw [if_neg hc]
      exact hInv.betMin tid' u' a'
  · intro tid'
    by_cases he : tid' = tid
    · subst he
      simp only [eq_self_iff_true, ite_true] at *
      simpa using hInv.winSettled tid'
    · simpa [he] using hInv.winSettled tid'

theorem createTournament_ok_inversion (st st' : BettingState) (c tid : Nat)
    (h : createTournament st c = .ok (st', tid)) :
    2 ≤ c ∧ c ≤ 100 ∧ tid = st.nextTournamentId ∧
    st' = { st with
      nextTournamentId := st.nextTournamentId + 1
      tournaments := fun i =>
        if i = st.nextTournamentId then
          { isActive := true, isSettled := false, totalPool := 0
            winningAgentId := 0, agentCount := c }
        else st.tournaments i } := by
  simp only [createTournament] at h
  split at h
  · rename_i hc
    injection h with h
    injection h with h1 h2
    exact ⟨hc.1, hc.2, h2.symm, h1.symm⟩
  · exact absurd h (by simp)

theorem closeBetting_ok_inversion (st st' : BettingState) (tid : Nat)
    (h : closeBetting st tid = .ok st') :
    (st.tournaments tid).agentCount ≠ 0 ∧
    (st.tournaments tid).isActive = true ∧
    st' = { st with
      tournaments := fun i =>
        if i = tid then { st.tournaments tid with isActive := false }
        else st.tournaments i } := by
  simp only [closeBetting] at h
  split at h
  · exact absurd h (by simp)
  split at h
  · exact absurd h (by simp)
  rename_i hex hact
  injection h with h
  exact ⟨hex, by simpa using hact, h.symm⟩

theorem settleTournament_ok_inversion (st st' : BettingState)
    (tid w fee : Nat) (feeOk : Bool)
    (h : settleTournament st tid w feeOk = .ok (st', fee)) :
    (st.tournaments tid).agentCount ≠ 0 ∧
    (st.tournaments tid).isActive = false ∧
    (st.tournaments tid).isSettled = false ∧
    (st.tournaments tid).totalPool ≠ 0 ∧
    0 < w ∧ w ≤ (st.tournaments tid).agentCount ∧ feeOk = true ∧
    fee = ((st.tournaments tid).totalPool * PLATFORM_FEE_BP) / BP_DIVISOR ∧
    st' = { st with
      tournaments := fun i =>
        if i = tid then
          { st.tournaments tid with isSettled := true, winningAgentId := w }
        else st.tournaments i } := by
  simp only [settleTournament] at h
  split at h
  · exact absurd h (by simp)
  split at h
  · exact absurd h (by simp)
  split at h
  · exact absurd h (by simp)
  split at h
  · exact absurd h (by simp)
  split at h
  · exact absurd h (by simp)
  split at h
  · exact absurd h (by simp)
  rename_i hex hact hset hpool hw hfee
  injection h with h
  injection h with h1 h2
  refine ⟨hex, by simpa using hact, by simpa using hset, hpool, ?_, ?_,
    by simpa using hfee, h2.symm, h1.symm⟩ <;> omega

theorem cancelTournament_ok_inversion (st st' : BettingState) (tid : Nat)
    (h : cancelTournament st tid = .ok st') :
    (st.tournaments tid).agentCount ≠ 0 ∧
    (st.tournaments tid).isSettled = false ∧
    st' = { st with
      tournaments := fun i =>
        if i = tid then
          { st.tournaments tid with isActive := false, isSettled := true }
        else st.tournaments i } := by
  simp only [cancelTournament] at h
  split at h
  · exact absurd h (by simp)
  split at h
  · exact absurd h (by simp)
  rename_i hex hset
  injection h with h
  exact ⟨hex, by simpa using hset, h.symm⟩

theorem claimCompute_ok_inversion (st st' : BettingState) (tid : Nat)
    (u : Addr) (p : Nat) (h : claimCompute st tid u = .ok (st', p)) :
    (st.tournaments tid).agentCount ≠ 0 ∧
    (st.tournaments tid).isSettled = true ∧
    st.hasClaimed tid u = false ∧ p ≠ 0 ∧
    ((st.tournaments tid).winningAgentId = 0 →
      p = refundSum st tid u (st.tournaments tid).agentCount) ∧
    ((st.tournaments tid).winningAgentId ≠ 0 →
      st.userBets tid u (st.tournaments tid).winningAgentId ≠ 0 ∧
      p = winnerPayout (st.tournaments tid).totalPool
            (st.agentPools tid (st.tournaments tid).winningAgentId)
            (st.userBets tid u (st.tournaments tid).winningAgentId)) ∧
    st' = { st with
      hasClaimed := fun i u' =>
        if i = tid ∧ u' = u then true else st.hasClaimed i u' } := by
  simp only [claimCompute] at h
  split at h
  · exact absurd h (by simp)
  split at h
  · exact absurd h (by simp)
  split at h
  · exact absurd h (by simp)
  rename_i hex hset hcl
  split at h
  · exact absurd h (by simp)
  rename_i payout hw
  split at h
  · exact absurd h (by simp)
  rename_i hp
  injection h with h
  injection h with h1 h2
  subst h2
  refine ⟨hex, by simpa using hset, by simpa using hcl, hp, ?_, ?_, h1.symm⟩
  · intro hw0
    rw [if_pos hw0] at hw
    injection hw with hw
    exact hw.symm
  · intro hw0
    rw [if_neg hw0] at hw
    split at hw
    · exact absurd hw (by simp)
    rename_i hb
    injection hw with hw
    exact ⟨hb, hw.symm⟩

theorem claimWinnings_ok_inversion (st st' : BettingState) (tid : Nat)
    (u : Addr) (p : Nat) (transferOk : Bool)
    (h : claimWinnings st tid u transferOk = .ok (st', p)) :
    claimCompute st tid u = .ok (st', p) ∧ transferOk = true := by
  simp only [claimWinnings] at h
  split at h
  · exact absurd h (by simp)
  rename_i sp hc
  split at h
  · rename_i hok
    injection h with h
    exact ⟨by rw [hc, h], hok⟩
  · exact absurd h (by simp)

theorem inv_createTournament (st st' : BettingState) (c tid : Nat)
    (hInv : Inv st) (h : createTournament st c = .ok (st', tid)) :
    Inv st' := by
  obtain ⟨hc2, hc100, htid, hst'⟩ :=
    createTournament_ok_inversion st st' c tid h
  subst hst'
  constructor
  · intro tid' h'
    have h'' : st.nextTournamentId + 1 ≤ tid' := h'
    simp only
    rw [if_neg (by omega)]
    exact hInv.fresh_t tid' (by omega)
  · intro tid' h' a'
    have h'' : st.nextTournamentId + 1 ≤ tid' := h'
    exact hInv.fresh_p tid' (by omega) a'
  · intro tid'
    by_cases he : tid' = st.nextTournamentId
    · subst he
      simp only [sumPools, if_pos rfl, eq_self_iff_true, ite_true]
      exact Finset.sum_eq_zero fun i _ =>
        hInv.fresh_p st.nextTournamentId (Nat.le_refl _) (i + 1)
    · have hsum := hInv.conserve tid'
      simp only [sumPools] at hsum ⊢
      simpa [he] using hsum
  · intro tid' a' h'
    by_cases he : tid' = st.nextTournamentId
    · exact hInv.fresh_p tid' (by omega) a'
    · simp only [he, ite_false] at h'
      exact hInv.poolRange tid' a' h'
  · exact hInv.betLe
  · exact hInv.betMin
  · intro tid'
    by_cases he : tid' = st.nextTournamentId
    · subst he
      simp
    · simpa [he] using hInv.winSettled tid'

theorem inv_closeBetting (st st' : BettingState) (tid : Nat)
    (hInv : Inv st) (h : closeBetting st tid = .ok st') : Inv st' := by
  obtain ⟨hex, _, hst'⟩ := closeBetting_ok_inversion st st' tid h
  subst hst'
  constructor
  · intro tid' h'
    by_cases he : tid' = tid
    · subst he
      exact absurd (congrArg Tournament.agentCount (hInv.fresh_t tid' h'))
        (by simpa [Tournament.empty] using hex)
    · simpa [he] using hInv.fresh_t tid' h'
  · exact hInv.fresh_p
  · intro tid'
    have hsum := hInv.conserve tid'
    by_cases he : tid' = tid
    · subst he
      simp only [sumPools] at hsum ⊢
      simpa using hsum
    · simp only [sumPools] at hsum ⊢
      simpa [he] using hsum
  · intro tid' a' h'
    by_cases he : tid' = tid
    · subst he
      simp only [eq_self_iff_true, ite_true] at h'
      exact hInv.poolRange tid' a' (by simpa using h')
    · simp only [he, ite_false] at h'
      exact hInv.poolRange tid' a' h'
  · exact hInv.betLe
  · exact hInv.betMin
  · intro tid'
    by_cases he : tid' = tid
    · subst he
      simpa using hInv.winSettled tid'
    · simpa [he] using hInv.winSettled tid'

theorem inv_settleTournament (st st' : BettingState) (tid w fee : Nat)
    (feeOk : Bool) (hInv : Inv st)
    (h : settleTournament st tid w feeOk = .ok (st', fee)) : Inv st' := by
  obtain ⟨hex, _, _, _, hw0, hwc, _, _, hst'⟩ :=
    settleTournament_ok_inversion st st' tid w fee feeOk h
  subst hst'
  constructor
  · intro tid' h'
    by_cases he : tid' = tid
    · subst he
      exact absurd (congrArg Tournament.agentCount (hInv.fresh_t tid' h'))
        (by simpa [Tournament.empty] using hex)
    · simpa [he] using hInv.fresh_t tid' h'
  · exact hInv.fresh_p
  · intro tid'
    have hsum := hInv.conserve tid'
    by_cases he : tid' = tid
    · subst he
      simp only [sumPools] at hsum ⊢
      simpa using hsum
    · simp only [sumPools] at hsum ⊢
      simpa [he] using hsum
  · intro tid' a' h'
    by_cases he : tid' = tid
    · subst he
      simp only [eq_self_iff_true, ite_true] at h'
      exact hInv.poolRange tid' a' (by simpa using h')
    · simp only [he, ite_false] at h'
      exact hInv.poolRange tid' a' h'
  · exact hInv.betLe
  · exact hInv.betMin
  · intro tid'
    by_cases he : tid' = tid
    · subst he
      intro _
      simp only [eq_self_iff_true, ite_true]
      exact ⟨trivial, hw0, hwc⟩
    · simpa [he] using hInv.winSettled tid'

theorem inv_cancelTournament (st st' : BettingState) (tid : Nat)
    (hInv : Inv st) (h : cancelTournament st tid = .ok st') : Inv st' := by
  obtain ⟨hex, hset, hst'⟩ := cancelTournament_ok_inversion st st' tid h
  subst hst'
  constructor
  · intro tid' h'
    by_cases he : tid' = tid
    · subst he
      exact absurd (congrArg Tournament.agentCount (hInv.fresh_t tid' h'))
        (by simpa [Tournament.empty] using hex)
    · simpa [he] using hInv.fresh_t tid' h'
  · exact hInv.fresh_p
  · intro tid'
    have hsum := hInv.conserve tid'
    by_cases he : tid' = tid
    · subst he
      simp only [sumPools] at hsum ⊢
      simpa using hsum
    · simp only [sumPools] at hsum ⊢
      simpa [he] using hsum
  · intro tid' a' h'
    by_cases he : tid' = tid
    · subst he
      simp only [eq_self_iff_true, ite_true] at h'
      exact hInv.poolRange tid' a' (by simpa using h')
    · simp only [he, ite_false] at h'
      exact hInv.poolRange tid' a' h'
  · exact hInv.betLe
  · exact hInv.betMin
  · intro tid'
    by_cases he : tid' = tid
    · subst he
      intro hw'
      simp only [eq_self_iff_true, ite_true] at hw'
      exact absurd (hInv.winSettled tid' hw').1 (by simp [hset])
    · simpa [he] using hInv.winSettled tid'

theorem inv_claimWinnings (st st' : BettingState) (tid : Nat) (u : Addr)
    (p : Nat) (transferOk : Bool) (hInv : Inv st)
    (h : claimWinnings st tid u transferOk = .ok (st', p)) : Inv st' := by
  obtain ⟨hcc, _⟩ := claimWinnings_ok_inversion st st' tid u p transferOk h
  obtain ⟨_, _, _, _, _, _, hst'⟩ :=
    claimCompute_ok_inversion st st' tid u p hcc
  subst hst'
  exact ⟨hInv.fresh_t, hInv.fresh_p, hInv.conserve, hInv.poolRange,
    hInv.betLe, hInv.betMin, hInv.winSettled⟩

theorem inv_execOp (st : BettingState) (op : Op) (hInv : Inv st) :
    Inv (execOp st op) := by
  cases op with
  | create c =>
    simp only [execOp]
    rcases hres : createTournament st c with e | ⟨s, tidr⟩
    · exact hInv
    · exact inv_createTournament st s c tidr hInv hres
  | close tid =>
    simp only [execOp]
    rcases hres : closeBetting st tid with e | s
    · exact hInv
    · exact inv_closeBetting st s tid hInv hres
  | settle tid w feeOk =>
    simp only [execOp]
    rcases hres : settleTournament st tid w feeOk with e | ⟨s, fee⟩
    · exact hInv
    · exact inv_settleTournament st s tid w fee feeOk hInv hres
  | cancel tid =>
    simp only [execOp]
    rcases hres : cancelTournament st tid with e | s
    · exact hInv
    · exact inv_cancelTournament st s tid hInv hres
  | bet tid a amt u =>
    simp only [execOp]
    rcases hres : placeBet st tid a amt u with e | s
    · exact hInv
    · exact inv_placeBet st s tid a amt u hInv hres
  | claim tid u transferOk =>
    simp only [execOp]
    rcases hres : claimWinnings st tid u transferOk with e | ⟨s, p⟩
    · exact hInv
    · exact inv_claimWinnings st s tid u p transferOk hInv hres

theorem inv_foldl (ops : List Op) (st : BettingState) (hInv : Inv st) :
    Inv (ops.foldl execOp st) := by
  induction ops generalizing st with
  | nil => exact hInv
  | cons op rest ih => exact ih (execOp st op) (inv_execOp st op hInv)

/-- Every reachable storage state satisfies the ledger invariants. -/
theorem inv_of_reachable (st : BettingState) (h : Reachable st) : Inv st := by
  obtain ⟨ops, hops⟩ := h
  rw [← hops]
  exact inv_foldl ops initState inv_init

/-- A single agent pool never exceeds the tournament's total pool. -/
theorem pool_le_totalPool (st : BettingState) (hInv : Inv st) (tid a : Nat)
    (ha0 : 0 < a) (hac : a ≤ (st.tournaments tid).agentCount) :
    st.agentPools tid a ≤ (st.tournaments tid).totalPool := by
  rw [← hInv.conserve tid]
  have hmem : a - 1 ∈ Finset.range (st.tournaments tid).agentCount :=
    Finset.mem_range.mpr (by omega)
  have hle := Finset.single_le_sum (f := fun i => st.agentPools tid (i + 1))
    (fun i _ => Nat.zero_le _) hmem
  simpa [sumPools, Nat.sub_add_cancel ha0] using hle

/-- A winner's payout is positive whenever the stake meets the wager
minimum and the pools are consistent. -/
theorem winnerPayout_pos (T W s : Nat) (hs : MIN_BET ≤ s) (hsW : s ≤ W)
    (hWT : W ≤ T) : 0 < winnerPayout T W s := by
  have hW : 0 < W := by
    have : 0 < MIN_BET := by norm_num [MIN_BET]
    omega
  have h20 : 20 ≤ s := by
    have : 20 ≤ MIN_BET := by norm_num [MIN_BET]
    omega
  have hD : T ≤ 20 * (T - T * PLATFORM_FEE_BP / BP_DIVISOR) := by
    simp only [PLATFORM_FEE_BP, BP_DIVISOR]
    omega
  refine Nat.div_pos ?_ hW
  calc W ≤ T := hWT
    _ ≤ 20 * (T - T * PLATFORM_FEE_BP / BP_DIVISOR) := hD
    _ ≤ s * (T - T * PLATFORM_FEE_BP / BP_DIVISOR) :=
        Nat.mul_le_mul_right _ h20

/-- Sample run: a 2-agent tournament, three wagers, closed and settled
with agent 1 as winner (the worked example of the spec, scaled by the
wager minimum). -/
def opsA : List Op :=
  [.create 2, .bet 0 1 MIN_BET 7, .bet 0 1 (2 * MIN_BET) 8,
   .bet 0 2 (5 * MIN_BET) 9, .close 0, .settle 0 1 true]

/-- The storage state produced by `opsA`. -/
def stA : BettingState := run opsA

/-- C1. Pool conservation: in every reachable state, for every
tournament, the sum of the per-agent pools over agents
`1..agentCount` equals that tournament's `totalPool`. -/
theorem pool_conservation (st : BettingState) (h : Reachable st)
    (tid : Nat) : sumPools st tid = (st.tournaments tid).totalPool :=
  (inv_of_reachable st h).conserve tid

theorem pool_conservation_witness :
    sumPools stA 0 = (stA.tournaments 0).totalPool ∧
    (stA.tournaments 0).totalPool = 8 * MIN_BET :=
  ⟨pool_conservation stA ⟨opsA, rfl⟩ 0, by decide⟩

/-- C2. Winner payout: in a reachable state whose tournament is settled
with a nonzero winner, for a participant who has not claimed yet, the
claim fails with `NoWinningBets` exactly when their stake on the winner
is zero, and otherwise (with the transfer succeeding) pays exactly
`userStake * (totalPool - totalPool*500/10000) / winnerPool` with floor
division. -/
theorem winner_claim_spec (st : BettingState) (h : Reachable st)
    (tid : Nat) (u : Addr)
    (hset : (st.tournaments tid).isSettled = true)
    (hw : (st.tournaments tid).winningAgentId ≠ 0)
    (hncl : st.hasClaimed tid u = false) :
    (st.userBets tid u (st.tournaments tid).winningAgentId = 0 →
      ∀ transferOk,
        claimWinnings st tid u transferOk = .error .NoWinningBets) ∧
    (st.userBets tid u (st.tournaments tid).winningAgentId ≠ 0 →
      ∃ st', claimWinnings st tid u true =
        .ok (st', winnerPayout (st.tournaments tid).totalPool
              (st.agentPools tid (st.tournaments tid).winningAgentId)
              (st.userBets tid u (st.tournaments tid).winningAgentId))) := by
  have hInv := inv_of_reachable st h
  have hwr := hInv.winSettled tid hw
  have hag : (st.tournaments tid).agentCount ≠ 0 := by omega
  constructor
  · intro hstake transferOk
    simp [claimWinnings, claimCompute, hag, hset, hncl, hw, hstake]
  · intro hstake
    have hsmin : MIN_BET ≤
        st.userBets tid u (st.tournaments tid).winningAgentId := by
      rcases hInv.betMin tid u (st.tournaments tid).winningAgentId with
        h0 | h1
      · exact absurd h0 hstake
      · exact h1
    have hsW := hInv.betLe tid u (st.tournaments tid).winningAgentId
    have hWT := pool_le_totalPool st hInv tid
      (st.tournaments tid).winningAgentId hwr.2.1 hwr.2.2
    have hpos := winnerPayout_pos (st.tournaments tid).totalPool
      (st.agentPools tid (st.tournaments tid).winningAgentId)
      (st.userBets tid u (st.tournaments tid).winningAgentId)
      hsmin (le_trans hsW (le_refl _)) hWT
    refine ⟨{ st with
      hasClaimed := fun i u' =>
        if i = tid ∧ u' = u then true else st.hasClaimed i u' }, ?_⟩
    simp [claimWinnings, claimCompute, hag, hset, hncl, hw, hstake,
      hpos.ne']

theorem winner_claim_spec_witness :
    claimWinnings stA 0 9 true = .error Err.NoWinningBets ∧
    (claimWinnings stA 0 7 true).map Prod.snd = .ok 2533333333333333 := by
  constructor
  · exact (winner_claim_spec stA ⟨opsA, rfl⟩ 0 9 (by decide) (by decide)
      (by decide)).1 (by decide) true
  · obtain ⟨st', hok⟩ := (winner_claim_spec stA ⟨opsA, rfl⟩ 0 7 (by decide)
      (by decide) (by decide)).2 (by decide)
    rw [hok]
    simp only [Except.map]
    decide

/-- C3. Claim-once with rollback: a successful claim leaves a state in
which any further claim by the same participant on the same tournament
fails with `AlreadyClaimed`; the claimed flag is already set in the state
at which the outbound transfer is attempted; and a failed transfer makes
the whole operation fail with `TransferFailed`, leaving the pre-state
untouched (the claim is not consumed). -/
theorem claim_once_and_rollback :
    (∀ (st st' : BettingState) (tid : Nat) (u : Addr) (p : Nat)
       (transferOk : Bool),
       claimWinnings st tid u transferOk = .ok (st', p) →
       ∀ transferOk2,
         claimWinnings st' tid u transferOk2 = .error .AlreadyClaimed) ∧
    (∀ (st st' : BettingState) (tid : Nat) (u : Addr) (p : Nat),
       claimCompute st tid u = .ok (st', p) →
       st'.hasClaimed tid u = true) ∧
    (∀ (st : BettingState) (tid : Nat) (u : Addr),
       (∃ r, claimCompute st tid u = .ok r) →
       claimWinnings st tid u false = .error .TransferFailed ∧
       execOp st (.claim tid u false) = st) := by
  refine ⟨?_, ?_, ?_⟩
  · intro st st' tid u p transferOk h transferOk2
    obtain ⟨hcc, _⟩ :=
      claimWinnings_ok_inversion st st' tid u p transferOk h
    obtain ⟨hag, hset, _, _, _, _, hst'⟩ :=
      claimCompute_ok_inversion st st' tid u p hcc
    subst hst'
    simp [claimWinnings, claimCompute, hag, hset]
  · intro st st' tid u p h
    obtain ⟨_, _, _, _, _, _, hst'⟩ :=
      claimCompute_ok_inversion st st' tid u p h
    subst hst'
    simp
  · intro st tid u h
    obtain ⟨⟨st', p⟩, hcc⟩ := h
    constructor
    · simp [claimWinnings, hcc]
    · simp [execOp, claimWinnings, hcc]

theorem claim_once_and_rollback_witness :
    (∃ st2 p, claimWinnings stA 0 7 true = .ok (st2, p) ∧
       claimWinnings st2 0 7 true = .error .AlreadyClaimed) ∧
    claimWinnings stA 0 7 false = .error .TransferFailed ∧
    execOp stA (.claim 0 7 false) = stA := by
  obtain ⟨st2, p, hok⟩ :
      ∃ st2 p, claimWinnings stA 0 7 true = .ok (st2, p) := ⟨_, _, rfl⟩
  have hcc : claimCompute stA 0 7 = .ok (st2, p) :=
    (claimWinnings_ok_inversion stA st2 0 7 p true hok).1
  obtain ⟨hfail, hframe⟩ :=
    claim_once_and_rollback.2.2 stA 0 7 ⟨(st2, p), hcc⟩
  exact ⟨⟨st2, p, hok,
    claim_once_and_rollback.1 stA st2 0 7 p true hok true⟩, hfail, hframe⟩

/-- C4. Settlement: `settleTournament` succeeds (given a succeeding fee
transfer) iff the tournament exists, is closed, is unsettled, has a
nonzero pool, and the winner id is in range; each violated precondition
yields its own named error, checked in the contract's order; settling an
already-settled tournament fails with `AlreadySettled`; and a failed fee
transfer aborts with `FeeTransferFailed`, leaving the state unchanged. -/
theorem settle_spec :
    (∀ (st : BettingState) (tid w : Nat) (feeOk : Bool),
       (∃ r, settleTournament st tid w feeOk = .ok r) ↔
       ((st.tournaments tid).agentCount ≠ 0 ∧
        (st.tournaments tid).isActive = false ∧
        (st.tournaments tid).isSettled = false ∧
        (st.tournaments tid).totalPool ≠ 0 ∧
        0 < w ∧ w ≤ (st.tournaments tid).agentCount ∧ feeOk = true)) ∧
    (∀ (st : BettingState) (tid w : Nat) (feeOk : Bool),
       ((st.tournaments tid).agentCount = 0 →
         settleTournament st tid w feeOk = .error .TournamentNotFound) ∧
       ((st.tournaments tid).agentCount ≠ 0 →
        (st.tournaments tid).isActive = true →
         settleTournament st tid w feeOk = .error .BettingStillActive) ∧
       ((st.tournaments tid).agentCount ≠ 0 →
        (st.tournaments tid).isActive = false →
        (st.tournaments tid).isSettled = true →
         settleTournament st tid w feeOk = .error .AlreadySettled) ∧
       ((st.tournaments tid).agentCount ≠ 0 →
        (st.tournaments tid).isActive = false →
        (st.tournaments tid).isSettled = false →
        (st.tournaments tid).totalPool = 0 →
         settleTournament st tid w feeOk = .error .NoBetsPlaced) ∧
       ((st.tournaments tid).agentCount ≠ 0 →
        (st.tournaments tid).isActive = false →
        (st.tournaments tid).isSettled = false →
        (st.tournaments tid).totalPool ≠ 0 →
        ¬ (0 < w ∧ w ≤ (st.tournaments tid).agentCount) →
         settleTournament st tid w feeOk = .error .InvalidAgentId) ∧
       ((st.tournaments tid).agentCount ≠ 0 →
        (st.tournaments tid).isActive = false →
        (st.tournaments tid).isSettled = false →
        (st.tournaments tid).totalPool ≠ 0 →
        0 < w → w ≤ (st.tournaments tid).agentCount → feeOk = false →
         settleTournament st tid w feeOk = .error .FeeTransferFailed ∧
         execOp st (.settle tid w feeOk) = st)) ∧
    (∀ (st st' : BettingState) (tid w fee : Nat) (feeOk : Bool),
       settleTournament st tid w feeOk = .ok (st', fee) →
       ∀ w2 feeOk2,
         settleTournament st' tid w2 feeOk2 = .error .AlreadySettled) := by
  refine ⟨?_, ?_, ?_⟩
  · intro st tid w feeOk
    constructor
    · rintro ⟨⟨st', fee⟩, hok⟩
      obtain ⟨h1, h2, h3, h4, h5, h6, h7, _, _⟩ :=
        settleTournament_ok_inversion st st' tid w fee feeOk hok
      exact ⟨h1, h2, h3, h4, h5, h6, h7⟩
    · rintro ⟨h1, h2, h3, h4, h5, h6, h7⟩
      refine ⟨({ st with
        tournaments := fun i =>
          if i = tid then
            { st.tournaments tid with isSettled := true, winningAgentId := w }
          else st.tournaments i },
        (st.tournaments tid).totalPool * PLATFORM_FEE_BP / BP_DIVISOR), ?_⟩
      simp [settleTournament, h1, h2, h3, h4, h5, h6, h7]
  · intro st tid w feeOk
    refine ⟨?_, ?_, ?_, ?_, ?_, ?_⟩
    · intro h1
      simp [settleTournament, h1]
    · intro h1 h2
      simp [settleTournament, h1, h2]
    · intro h1 h2 h3
      simp [settleTournament, h1, h2, h3]
    · intro h1 h2 h3 h4
      simp [settleTournament, h1, h2, h3, h4]
    · intro h1 h2 h3 h4 h5
      simp [settleTournament, h1, h2, h3, h4, h5]
    · intro h1 h2 h3 h4 h5 h6 h7
      have herr : settleTournament st tid w feeOk =
          .error .FeeTransferFailed := by
        simp [settleTournament, h1, h2, h3, h4, h5, h6, h7]
      exact ⟨herr, by simp [execOp, herr]⟩
  · intro st st' tid w fee feeOk hok w2 feeOk2
    obtain ⟨h1, h2, _, _, _, _, _, _, hst'⟩ :=
      settleTournament_ok_inversion st st' tid w fee feeOk hok
    subst hst'
    simp [settleTournament, h1, h2]

/-- A run that creates a 2-agent tournament, takes one wager, and closes
wagering: ready to settle. -/
def opsC : List Op := [.create 2, .bet 0 1 MIN_BET 7, .close 0]

/-- The storage state produced by `opsC`. -/
def stC : BettingState := run opsC

theorem settle_spec_witness :
    (∃ r, settleTournament stC 0 1 true = .ok r) ∧
    settleTournament stC 5 1 true = .error .TournamentNotFound ∧
    (∃ st2 fee, settleTournament stC 0 1 true = .ok (st2, fee) ∧
       settleTournament st2 0 1 true = .error .AlreadySettled) := by
  have hok : ∃ r, settleTournament stC 0 1 true = .ok r :=
    (settle_spec.1 stC 0 1 true).mpr (by decide)
  obtain ⟨⟨st2, fee⟩, h2⟩ := hok
  exact ⟨⟨(st2, fee), h2⟩, (settle_spec.2.1 stC 5 1 true).1 (by decide),
    ⟨st2, fee, h2, settle_spec.2.2 stC st2 0 1 fee true h2 1 true⟩⟩

/-- C5. Cancellation refund: in a state where the tournament is marked
settled with `winningAgentId = 0` (cancelled), any successful claim pays
exactly the sum of the participant's bets across agents
`1..agentCount`, with no fee deducted. -/
theorem cancel_refund (st st' : BettingState) (tid : Nat) (u : Addr)
    (p : Nat) (transferOk : Bool)
    (hw : (st.tournaments tid).winningAgentId = 0)
    (h : claimWinnings st tid u transferOk = .ok (st', p)) :
    p = refundSum st tid u (st.tournaments tid).agentCount := by
  obtain ⟨hcc, _⟩ := claimWinnings_ok_inversion st st' tid u p transferOk h
  obtain ⟨_, _, _, _, hcancel, _, _⟩ :=
    claimCompute_ok_inversion st st' tid u p hcc
  exact hcancel hw

/-- A run that creates a 2-agent tournament, takes one wager, and cancels
the tournament. -/
def opsE : List Op := [.create 2, .bet 0 1 MIN_BET 7, .cancel 0]

/-- The storage state produced by `opsE`. -/
def stE : BettingState := run opsE

theorem cancel_refund_witness :
    ∃ st2 p, claimWinnings stE 0 7 true = .ok (st2, p) ∧
      p = refundSum stE 0 7 (stE.tournaments 0).agentCount ∧
      refundSum stE 0 7 (stE.tournaments 0).agentCount = MIN_BET := by
  obtain ⟨st2, p, hok⟩ :
      ∃ st2 p, claimWinnings stE 0 7 true = .ok (st2, p) := ⟨_, _, rfl⟩
  exact ⟨st2, p, hok, cancel_refund stE st2 0 7 p true (by decide) hok,
    by decide⟩

/-- C6. placeBet: each violated precondition yields its own named error
(nonexistent tournament, inactive tournament, amount below `MIN_BET`,
agent id out of `[1, agentCount]`); when all preconditions hold, the call
succeeds and increments exactly the tournament's `totalPool`, the agent's
pool, and the caller's wager entry by `amount`, touching nothing else. -/
theorem placeBet_spec :
    (∀ (st : BettingState) (tid a amt : Nat) (u : Addr),
       ((st.tournaments tid).agentCount = 0 →
         placeBet st tid a amt u = .error .TournamentNotFound) ∧
       ((st.tournaments tid).agentCount ≠ 0 →
        (st.tournaments tid).isActive = false →
         placeBet st tid a amt u = .error .TournamentNotActive) ∧
       ((st.tournaments tid).agentCount ≠ 0 →
        (st.tournaments tid).isActive = true → amt < MIN_BET →
         placeBet st tid a amt u = .error .BelowMinimum) ∧
       ((st.tournaments tid).agentCount ≠ 0 →
        (st.tournaments tid).isActive = true → MIN_BET ≤ amt →
        ¬ (0 < a ∧ a ≤ (st.tournaments tid).agentCount) →
         placeBet st tid a amt u = .error .InvalidAgentId)) ∧
    (∀ (st : BettingState) (tid a amt : Nat) (u : Addr),
       (st.tournaments tid).agentCount ≠ 0 →
       (st.tournaments tid).isActive = true → MIN_BET ≤ amt →
       0 < a → a ≤ (st.tournaments tid).agentCount →
       ∃ st', placeBet st tid a amt u = .ok st' ∧
         (st'.tournaments tid).totalPool =
           (st.tournaments tid).totalPool + amt ∧
         st'.agentPools tid a = st.agentPools tid a + amt ∧
         st'.userBets tid u a = st.userBets tid u a + amt ∧
         (st'.tournaments tid).isActive = (st.tournaments tid).isActive ∧
         (st'.tournaments tid).isSettled = (st.tournaments tid).isSettled ∧
         (st'.tournaments tid).winningAgentId =
           (st.tournaments tid).winningAgentId ∧
         (st'.tournaments tid).agentCount =
           (st.tournaments tid).agentCount ∧
         (∀ i, i ≠ tid → st'.tournaments i = st.tournaments i) ∧
         (∀ i a', ¬ (i = tid ∧ a' = a) →
           st'.agentPools i a' = st.agentPools i a') ∧
         (∀ i u' a', ¬ (i = tid ∧ u' = u ∧ a' = a) →
           st'.userBets i u' a' = st.userBets i u' a') ∧
         (∀ i u', st'.hasClaimed i u' = st.hasClaimed i u') ∧
         st'.nextTournamentId = st.nextTournamentId) := by
  refine ⟨?_, ?_⟩
  · intro st tid a amt u
    refine ⟨?_, ?_, ?_, ?_⟩
    · intro h1
      simp [placeBet, h1]
    · intro h1 h2
      simp [placeBet, h1, h2]
    · intro h1 h2 h3
      simp [placeBet, h1, h2, h3]
    · intro h1 h2 h3 h4
      simp [placeBet, h1, h2, h3, Nat.not_lt.mpr h3, h4]
  · intro st tid a amt u h1 h2 h3 h4 h5
    have hok : placeBet st tid a amt u = .ok { st with
      tournaments := fun i =>
        if i = tid then
          { st.tournaments tid with
              totalPool := (st.tournaments tid).totalPool + amt }
        else st.tournaments i
      agentPools := fun i a' =>
        if i = tid ∧ a' = a then st.agentPools i a' + amt
        else st.agentPools i a'
      userBets := fun i u' a' =>
        if i = tid ∧ u' = u ∧ a' = a then st.userBets i u' a' + amt
        else st.userBets i u' a' } := by
      simp [placeBet, h1, h2, Nat.not_lt.mpr h3, h4, h5]
    refine ⟨_, hok, by simp, by simp, by simp, by simp, by simp, by simp,
      by simp, ?_, ?_, ?_, by simp, by simp⟩
    · intro i hi
      simp [hi]
    · intro i a' hia
      simp only []
      rw [if_neg hia]
    · intro i u' a' hiua
      simp only []
      rw [if_neg hiua]

theorem placeBet_spec_witness :
    placeBet stC 0 1 MIN_BET 7 = .error .TournamentNotActive ∧
    placeBet stE 5 1 MIN_BET 7 = .error .TournamentNotFound ∧
    (∃ st', placeBet (run [.create 2]) 0 1 MIN_BET 7 = .ok st' ∧
       (st'.tournaments 0).totalPool = 0 + MIN_BET) := by
  refine ⟨(placeBet_spec.1 stC 0 1 MIN_BET 7).2.1 (by decide) (by decide),
    (placeBet_spec.1 stE 5 1 MIN_BET 7).1 (by decide), ?_⟩
  obtain ⟨st', hok, hpool, _⟩ :=
    placeBet_spec.2 (run [.create 2]) 0 1 MIN_BET 7 (by decide) (by decide)
      (by decide) (by decide) (by decide)
  exact ⟨st', hok, by rw [hpool]; decide⟩

/-- C7 counterexample: the claim quantifies over every `entrantId`, but
`getAgentOdds` rejects an out-of-range agent id even when
`totalPool = 0` (here: a reachable state with a freshly created 2-agent
tournament, whose `totalPool` is 0, queried at agent id 3: the call
errors instead of returning the neutral 10000). -/
theorem odds_total_counterexample :
    Reachable (run [.create 2]) ∧
    ((run [.create 2]).tournaments 0).totalPool = 0 ∧
    getAgentOdds (run [.create 2]) 0 3 ≠ .ok BP_DIVISOR :=
  ⟨⟨[.create 2], rfl⟩, by decide, by decide⟩

/-- C7 (amended): for an agent id within `[1, agentCount]` of the
tournament, `getAgentOdds` returns 10000 when `totalPool = 0`, returns 0
when `totalPool ≠ 0` and the agent's pool is 0, and otherwise returns
`floor(floor(totalPool * 9500 / 10000) * 10000 / agentPool)`; being a
view function of the state it mutates nothing. -/
theorem odds_spec_amended (st : BettingState) (tid a : Nat) (ha0 : 0 < a)
    (hac : a ≤ (st.tournaments tid).agentCount) :
    ((st.tournaments tid).totalPool = 0 →
      getAgentOdds st tid a = .ok BP_DIVISOR) ∧
    ((st.tournaments tid).totalPool ≠ 0 → st.agentPools tid a = 0 →
      getAgentOdds st tid a = .ok 0) ∧
    ((st.tournaments tid).totalPool ≠ 0 → st.agentPools tid a ≠ 0 →
      getAgentOdds st tid a =
        .ok ((((st.tournaments tid).totalPool *
                (BP_DIVISOR - PLATFORM_FEE_BP)) / BP_DIVISOR)
              * BP_DIVISOR / st.agentPools tid a)) := by
  refine ⟨?_, ?_, ?_⟩
  · intro h1
    simp [getAgentOdds, ha0, hac, h1]
  · intro h1 h2
    simp [getAgentOdds, ha0, hac, h1, h2]
  · intro h1 h2
    simp [getAgentOdds, ha0, hac, h1, h2]

theorem odds_spec_amended_witness :
    getAgentOdds (run [.create 2]) 0 1 = .ok BP_DIVISOR ∧
    getAgentOdds stA 0 1 = .ok 25333 := by
  constructor
  · exact (odds_spec_amended (run [.create 2]) 0 1 (by decide)
      (by decide)).1 (by decide)
  · have h := (odds_spec_amended stA 0 1 (by decide) (by decide)).2.2
      (by decide) (by decide)
    rw [h]
    decide

/-- C8. `calculatePayout` mirrors `claimWinnings`: whenever a claim in a
given state succeeds with payout `p`, `calculatePayout` on that same
state returns `p`; and it returns 0 (instead of failing) when the
tournament is unsettled, when the participant has already claimed, when
they have no stake on the winner, or (cancelled case) when they have
nothing to refund. Being a view function of the state, it mutates
nothing. -/
theorem preview_mirrors_claim :
    (∀ (st st' : BettingState) (tid : Nat) (u : Addr) (p : Nat)
       (transferOk : Bool),
       claimWinnings st tid u transferOk = .ok (st', p) →
       calculatePayout st tid u = p) ∧
    (∀ (st : BettingState) (tid : Nat) (u : Addr),
       ((st.tournaments tid).isSettled = false →
         calculatePayout st tid u = 0) ∧
       (st.hasClaimed tid u = true → calculatePayout st tid u = 0) ∧
       ((st.tournaments tid).winningAgentId ≠ 0 →
        st.userBets tid u (st.tournaments tid).winningAgentId = 0 →
         calculatePayout st tid u = 0) ∧
       ((st.tournaments tid).winningAgentId = 0 →
        refundSum st tid u (st.tournaments tid).agentCount = 0 →
         calculatePayout st tid u = 0)) := by
  constructor
  · intro st st' tid u p transferOk h
    obtain ⟨hcc, _⟩ :=
      claimWinnings_ok_inversion st st' tid u p transferOk h
    obtain ⟨hag, hset, hncl, hp, hcancel, hwin, _⟩ :=
      claimCompute_ok_inversion st st' tid u p hcc
    by_cases hw : (st.tournaments tid).winningAgentId = 0
    · simp [calculatePayout, hset, hncl, hw, hcancel hw]
    · obtain ⟨hb, hpw⟩ := hwin hw
      simp [calculatePayout, hset, hncl, hw, hb, hpw]
  · intro st tid u
    refine ⟨?_, ?_, ?_, ?_⟩
    · intro h1
      simp [calculatePayout, h1]
    · intro h1
      by_cases h2 : (st.tournaments tid).isSettled
      · simp [calculatePayout, h1, h2]
      · simp [calculatePayout, h2]
    · intro h1 h2
      by_cases h3 : (st.tournaments tid).isSettled
      · by_cases h4 : st.hasClaimed tid u
        · simp [calculatePayout, h3, h4]
        · simp [calculatePayout, h1, h2, h3, h4]
      · simp [calculatePayout, h3]
    · intro h1 h2
      by_cases h3 : (st.tournaments tid).isSettled
      · by_cases h4 : st.hasClaimed tid u
        · simp [calculatePayout, h3, h4]
        · simp [calculatePayout, h1, h2, h3, h4]
      · simp [calculatePayout, h3]

theorem preview_mirrors_claim_witness :
    calculatePayout stA 0 7 = 2533333333333333 ∧
    calculatePayout stA 1 7 = 0 ∧
    calculatePayout stA 0 9 = 0 := by
  obtain ⟨st2, p, hok⟩ :
      ∃ st2 p, claimWinnings stA 0 7 true = .ok (st2, p) := ⟨_, _, rfl⟩
  have h1 := preview_mirrors_claim.1 stA st2 0 7 p true hok
  have hp : p = 2533333333333333 := by
    have : (claimWinnings stA 0 7 true).map Prod.snd =
        .ok 2533333333333333 := by decide
    rw [hok] at this
    simpa [Except.map] using this
  exact ⟨hp ▸ h1, (preview_mirrors_claim.2 stA 1 7).1 (by decide),
    (preview_mirrors_claim.2 stA 0 9).2.2.1 (by decide) (by decide)⟩

theorem add_div_le (a b c : Nat) : a / c + b / c ≤ (a + b) / c := by
  rcases Nat.eq_zero_or_pos c with hc | hc
  · simp [hc]
  · rw [Nat.le_div_iff_mul_le hc, Nat.add_mul]
    exact Nat.add_le_add (Nat.div_mul_le_self a c) (Nat.div_mul_le_self b c)

theorem sum_div_le (W D : Nat) (l : List Nat) :
    (l.map (fun s => s * D / W)).sum ≤ l.sum * D / W := by
  induction l with
  | nil => simp
  | cons x xs ih =>
    simp only [List.map_cons, List.sum_cons]
    calc x * D / W + (xs.map (fun s => s * D / W)).sum
        ≤ x * D / W + xs.sum * D / W := Nat.add_le_add_left ih _
      _ ≤ (x * D + xs.sum * D) / W := add_div_le _ _ _
      _ = (x + xs.sum) * D / W := by rw [Nat.add_mul]

/-- C9. Solvency of the proportional payout: in a settled tournament with
winner `w`, for any list of participants whose stakes on `w` sum to at
most the winner's pool, the sum of their individual payouts (each the
floor-divided share paid by `claimWinnings`) never exceeds the
distributable amount `totalPool - floor(totalPool*500/10000)`. -/
theorem payout_solvency (st : BettingState) (tid w : Nat)
    (users : List Addr)
    (_hw : (st.tournaments tid).winningAgentId = w) (_hw0 : w ≠ 0)
    (_hset : (st.tournaments tid).isSettled = true)
    (hpool : 0 < st.agentPools tid w)
    (hsum : (users.map (fun u => st.userBets tid u w)).sum ≤
      st.agentPools tid w) :
    (users.map (fun u =>
        winnerPayout (st.tournaments tid).totalPool (st.agentPools tid w)
          (st.userBets tid u w))).sum ≤
      (st.tournaments tid).totalPool -
        ((st.tournaments tid).totalPool * PLATFORM_FEE_BP) / BP_DIVISOR := by
  set T := (st.tournaments tid).totalPool
  set W := st.agentPools tid w
  set D := T - (T * PLATFORM_FEE_BP) / BP_DIVISOR with hD
  have h1 : (users.map (fun u =>
      winnerPayout T W (st.userBets tid u w))).sum =
      ((users.map (fun u => st.userBets tid u w)).map
        (fun s => s * D / W)).sum := by
    rw [List.map_map]
    rfl
  rw [h1]
  calc ((users.map (fun u => st.userBets tid u w)).map
        (fun s => s * D / W)).sum
      ≤ (users.map (fun u => st.userBets tid u w)).sum * D / W :=
        sum_div_le W D _
    _ ≤ W * D / W :=
        Nat.div_le_div_right (Nat.mul_le_mul_right D hsum)
    _ = D := Nat.mul_div_cancel_left D hpool

theorem payout_solvency_witness :
    (([7, 8] : List Addr).map (fun u =>
        winnerPayout (stA.tournaments 0).totalPool (stA.agentPools 0 1)
          (stA.userBets 0 u 1))).sum ≤
      (stA.tournaments 0).totalPool -
        ((stA.tournaments 0).totalPool * PLATFORM_FEE_BP) / BP_DIVISOR ∧
    (([7, 8] : List Addr).map (fun u =>
        winnerPayout (stA.tournaments 0).totalPool (stA.agentPools 0 1)
          (stA.userBets 0 u 1))).sum = 7599999999999999 :=
  ⟨payout_solvency stA 0 1 [7, 8] (by decide) (by decide) (by decide)
    (by decide) (by decide), by decide⟩

/-- C10. `getAgentOdds` fails with the invalid-agent error for every
agent id outside `[1, agentCount]`; in particular, for a nonexistent
tournament (`agentCount = 0`) it fails for every agent id instead of
returning 10000 or 0 — it is not a total query. -/
theorem odds_invalid_agent (st : BettingState) (tid a : Nat) :
    (¬ (0 < a ∧ a ≤ (st.tournaments tid).agentCount) →
      getAgentOdds st tid a = .error .InvalidAgentId) ∧
    ((st.tournaments tid).agentCount = 0 →
      ∀ a', getAgentOdds st tid a' = .error .InvalidAgentId) := by
  constructor
  · intro h
    simp [getAgentOdds, h]
  · intro h a'
    have hno : ¬ (0 < a' ∧ a' ≤ (st.tournaments tid).agentCount) := by
      omega
    simp [getAgentOdds, hno]

theorem odds_invalid_agent_witness :
    getAgentOdds initState 0 1 = .error .InvalidAgentId ∧
    getAgentOdds stA 0 3 = .error .InvalidAgentId :=
  ⟨(odds_invalid_agent initState 0 1).2 (by decide) 1,
   (odds_invalid_agent stA 0 3).1 (by decide)⟩

end Agonus
